import Mathlib

/-!
Verification of the news-aggregator selection logic (src/app.py).

The embedding models timestamps as absolute instants (integers, seconds).
Python compares timezone-aware datetimes by the instant they denote, and
astimezone(INDIA_TZ) changes only the display offset, never the instant,
so the conversion to the display timezone is the identity on instants.

Python dictionaries produced by fetch_feed are modelled by the structure
Item; the dt_ist key, which is absent until filter_last_window assigns it,
is an Option field defaulting to none.  filter_last_window assigns
item["dt_ist"] in place on every item of its input pool; that side effect
on the pool is modelled by the function poolAfterRun (the pool's item
records as they stand after the call returns).
-/

/-- Instants in time, in seconds; comparisons of timezone-aware datetimes
compare instants. -/
abbrev Time := Int

/-- One normalized news item, the dictionary built in fetch_feed
(src/app.py lines 135-145).  The dt_ist key is added later, by
filter_last_window, hence an Option that starts out none. -/
structure Item where
  source : String
  feed : String
  title : String
  link : String
  summary : String
  dt_utc : Option Time
  image : Option String
  dt_ist : Option Time
deriving DecidableEq

/-- HOURS_WINDOW constant (src/app.py line 34). -/
def HOURS_WINDOW : Int := 24

/-- FEEDS registry (src/app.py lines 14-31), in insertion order, the order
FEEDS.keys() iterates in. -/
def FEEDS : List (String × String) :=
  [("Moneycontrol", "http://www.moneycontrol.com/rss/latestnews.xml"),
   ("BS Hindi - Markets News", "https://hindi.business-standard.com/rss/markets/news.xml"),
   ("BS Hindi - Share Market", "https://hindi.business-standard.com/rss/markets/share-market.xml"),
   ("The Hindu - Markets", "https://www.thehindu.com/business/markets/feeder/default.rss"),
   ("Google News - India Markets", "https://news.google.com/rss/search?q=india+stock+market+OR+nifty+OR+sensex&hl=en-IN&gl=IN&ceid=IN:en")]

/-- De-duplication key (it["feed"], it["link"]) used for seen_keys
(src/app.py lines 190, 210). -/
def itemKey (it : Item) : String × String := (it.feed, it.link)

/-- Accessor for it["dt_ist"].  Inside filter_last_window every read of
this key happens after the assignment loop has set it on every item, so
the default is never consulted there; the totality theorem below shows
each access target is some. -/
def dtIst (it : Item) : Time := it.dt_ist.getD 0

/-- One iteration of the assignment loop (src/app.py lines 175-180):
item["dt_ist"] = item["dt_utc"].astimezone(INDIA_TZ) when dt_utc is
present (identity on instants), else now_ist. -/
def setDtIst (now_ist : Time) (it : Item) : Item :=
  match it.dt_utc with
  | some t => { it with dt_ist := some t }
  | none => { it with dt_ist := some now_ist }

/-- The whole assignment loop over the pool (src/app.py lines 175-180). -/
def annotate (now_ist : Time) (items : List Item) : List Item :=
  items.map (setDtIst now_ist)

/-- Pool item records as left in place after filter_last_window returns:
the function's only mutation of its input is the dt_ist assignment loop. -/
def poolAfterRun (now_ist : Time) (items : List Item) : List Item :=
  annotate now_ist items

/-- Record with the dt_ist key removed; used to state which fields the
assignment loop leaves untouched. -/
def clearDtIst (it : Item) : Item := { it with dt_ist := none }

/-- Comparator of the three sort(key=lambda x: x["dt_ist"], reverse=True)
calls: a may stay before b exactly when a is at least as new. -/
def newerFirst (a b : Item) : Prop := dtIst b ≤ dtIst a

instance : DecidableRel newerFirst :=
  fun a b => inferInstanceAs (Decidable (dtIst b ≤ dtIst a))

instance : IsTotal Item newerFirst := ⟨fun a b => le_total (dtIst b) (dtIst a)⟩

instance : IsTrans Item newerFirst := ⟨fun _ _ _ h h' => le_trans h' h⟩

/-- Stable descending sort by dt_ist.  Python's list.sort with
reverse=True is a stable sort under the same comparator, and any two
stable sorts agree, so insertion sort is an exact model. -/
def sortNewestFirst (l : List Item) : List Item := List.insertionSort newerFirst l

/-- Inner for-loop of the per-feed fallback (src/app.py lines 209-217):
walk the feed's candidates newest first, skip keys already seen, append
to final_items until the feed's count reaches the limit. -/
def fallbackLoop (limit : Nat) :
    List Item → List Item → List (String × String) → Nat →
    List Item × List (String × String)
  | [], final_items, seen_keys, _ => (final_items, seen_keys)
  | cand :: rest, final_items, seen_keys, already =>
    if itemKey cand ∈ seen_keys then
      fallbackLoop limit rest final_items seen_keys already
    else if limit ≤ already + 1 then
      (final_items ++ [cand], itemKey cand :: seen_keys)
    else
      fallbackLoop limit rest (final_items ++ [cand]) (itemKey cand :: seen_keys) (already + 1)

/-- Body of the for feed_name in FEEDS.keys() loop (src/app.py lines
193-217), acting on the state (final_items, seen_keys). -/
def feedFloorStep (limit : Nat) (items : List Item)
    (st : List Item × List (String × String)) (feed_name : String) :
    List Item × List (String × String) :=
  let feed_items := items.filter (fun it => decide (it.feed = feed_name))
  if feed_items.isEmpty then st
  else
    let already_in := (st.1.filter (fun it => decide (it.feed = feed_name))).length
    if limit ≤ already_in then st
    else fallbackLoop limit (sortNewestFirst feed_items) st.1 st.2 already_in

/-- Items of the (annotated) pool within the trailing window
(src/app.py line 183): dt_ist at least cutoff = now - HOURS_WINDOW hours. -/
def withinWindow (now_ist : Time) (items : List Item) : List Item :=
  (annotate now_ist items).filter
    (fun it => decide (now_ist - HOURS_WINDOW * 3600 ≤ dtIst it))

/-- Seed of the final list (src/app.py lines 184, 189): within-window
items sorted newest first. -/
def seedOf (now_ist : Time) (items : List Item) : List Item :=
  sortNewestFirst (withinWindow now_ist items)

/-- Selection before the optional global trim: seed, then the per-feed
fallback pass over the configured feed names, then the final global sort
(src/app.py lines 182-220). -/
def filter_core (feeds : List String) (now_ist : Time) (items : List Item)
    (fallback_limit_per_feed : Nat) : List Item :=
  sortNewestFirst
    (feeds.foldl (feedFloorStep fallback_limit_per_feed (annotate now_ist items))
      (seedOf now_ist items, (seedOf now_ist items).map itemKey)).1

/-- Optional overall trim (src/app.py lines 222-223): when global_limit
is set and exceeded, keep the first global_limit entries. -/
def trim (global_limit : Option Nat) (l : List Item) : List Item :=
  match global_limit with
  | none => l
  | some n => if n < l.length then l.take n else l

/-- The selector filter_last_window (src/app.py lines 164-235), as a
function of the configured feed names, the current local time, the item
pool and the two parameters.  The feed registry is passed explicitly; the
route calls it with the keys of FEEDS in order. -/
def filter_last_window (feeds : List String) (now_ist : Time) (items : List Item)
    (fallback_limit_per_feed : Nat) (global_limit : Option Nat) : List Item :=
  trim global_limit (filter_core feeds now_ist items fallback_limit_per_feed)

/-- Count of a feed's entries in a list (already_in / counts_by_feed
bookkeeping, src/app.py lines 201, 229). -/
def countFeed (f : String) (l : List Item) : Nat :=
  (l.filter (fun it => decide (it.feed = f))).length

/-- Count of a feed's entries strictly older than the cutoff. -/
def countOldFeed (f : String) (cutoff : Time) (l : List Item) : Nat :=
  (l.filter (fun it => decide (it.feed = f) && decide (dtIst it < cutoff))).length

/-- Feedparser entry source element (entry.source), with its title and
name attributes; the attribute form and the dict form of the lookup in
get_publisher_name read the same two fields, so one record covers both. -/
structure RawSource where
  title : Option String
  name : Option String
deriving DecidableEq

/-- Media field of a feedparser entry (media_content, media_thumbnail):
absent, a single dict carrying an optional url, or a list of dicts each
carrying an optional url (src/app.py lines 50-70 handle both shapes). -/
inductive MediaField where
  | absent
  | dict (url : Option String)
  | list (urls : List (Option String))
deriving DecidableEq

/-- One element of entry.links, with its type and href attributes,
defaulting to the empty string exactly as the or-fallbacks at src/app.py
lines 73-74 do. -/
structure RawLink where
  type : String
  href : String
deriving DecidableEq

/-- Feedparser entry as read by fetch_feed: each getattr target is a
field, optional when the attribute may be missing. -/
structure RawEntry where
  media_content : MediaField
  media_thumbnail : MediaField
  links : List RawLink
  source : Option RawSource
  title : Option String
  link : Option String
  summary : Option String
  published_parsed : Option Time
  updated_parsed : Option Time
deriving DecidableEq

/-- Python truthiness of an optional string: None and the empty string
are falsy. -/
def truthyString (u : Option String) : Option String :=
  match u with
  | some s => if s = "" then none else some s
  | none => none

/-- Url delivered by one media field: first list element's url, or the
dict's url, kept only when truthy (src/app.py lines 50-70; an empty list
or a urlless dict falls through). -/
def mediaFieldUrl (m : MediaField) : Option String :=
  match m with
  | .absent => none
  | .dict u => truthyString u
  | .list [] => none
  | .list (u :: _) => truthyString u

/-- extract_image (src/app.py lines 48-78): media_content first, then
media_thumbnail, then the first links element whose type starts with
image/ and whose href is nonempty. -/
def extract_image (e : RawEntry) : Option String :=
  match mediaFieldUrl e.media_content with
  | some u => some u
  | none =>
    match mediaFieldUrl e.media_thumbnail with
    | some u => some u
    | none =>
      (e.links.find? (fun l =>
        !decide (l.type = "") && l.type.startsWith "image/" && !decide (l.href = ""))).map
        (fun l => l.href)

/-- get_publisher_name (src/app.py lines 81-105): entry.source.title or
entry.source.name when truthy, else the feed name. -/
def get_publisher_name (default_source_name : String) (e : RawEntry) : String :=
  match e.source with
  | none => default_source_name
  | some src =>
    match truthyString src.title with
    | some t => t
    | none =>
      match truthyString src.name with
      | some t => t
      | none => default_source_name

/-- Outcome of the guarded HTTP GET in fetch_feed: either the parsed
entry list, or the exception swallowed at src/app.py lines 114-116
(connection error, timeout, raise_for_status).  Feedparser itself never
raises; a body it cannot parse yields ok with zero entries. -/
inductive FetchResult where
  | httpError (message : String)
  | ok (entries : List RawEntry)

/-- Normalisation of one entry (src/app.py lines 122-145). -/
def normalizeEntry (source_name : String) (entry : RawEntry) : Item :=
  let dt_struct :=
    match entry.published_parsed with
    | some t => some t
    | none => entry.updated_parsed
  { source := get_publisher_name source_name entry,
    feed := source_name,
    title := entry.title.getD "No title",
    link := entry.link.getD "",
    summary := entry.summary.getD "",
    dt_utc := dt_struct,
    image := extract_image entry,
    dt_ist := none }

/-- fetch_feed (src/app.py lines 108-147) as a function of the network's
response for the feed's url: the except branch returns the empty list,
the success branch normalises every entry. -/
def fetch_feed (source_name : String) (resp : FetchResult) : List Item :=
  match resp with
  | .httpError _ => []
  | .ok entries => entries.map (normalizeEntry source_name)

/-- fetch_all (src/app.py lines 150-160), with the network as a function
from url to outcome: each feed's items are appended to the pool.  The
try/except around fetch_feed is unreachable in the model because
fetch_feed already returns a plain list on every outcome. -/
def fetch_all (feeds : List (String × String)) (net : String → FetchResult) : List Item :=
  feeds.foldl (fun all_items p => all_items ++ fetch_feed p.1 (net p.2)) []

/-- Item without a timestamp, as a feed without dates would produce it. -/
def itemNoStamp : Item :=
  { source := "Moneycontrol", feed := "Moneycontrol", title := "t", link := "http://x",
    summary := "", dt_utc := none, image := none, dt_ist := none }

/-- Recent item of feed A sharing its link with itemCrossB of feed B. -/
def itemCrossA : Item :=
  { source := "A", feed := "A", title := "a", link := "http://l",
    summary := "", dt_utc := some 0, image := none, dt_ist := none }

/-- Recent item of feed B sharing its link with itemCrossA of feed A. -/
def itemCrossB : Item :=
  { source := "B", feed := "B", title := "b", link := "http://l",
    summary := "", dt_utc := some 0, image := none, dt_ist := none }

/-- Recent item used twice in the duplicate-pool counterexample. -/
def itemRecent : Item :=
  { source := "Moneycontrol", feed := "Moneycontrol", title := "a", link := "http://a",
    summary := "", dt_utc := some 0, image := none, dt_ist := none }

/-- Item three days old relative to now = 0, outside a 24-hour window. -/
def itemOld : Item :=
  { source := "F2", feed := "F2", title := "b", link := "http://b",
    summary := "", dt_utc := some (-259200), image := none, dt_ist := none }

lemma itemKey_setDtIst (now_ist : Time) (it : Item) :
    itemKey (setDtIst now_ist it) = itemKey it := by
  rcases it with ⟨s, f, t, l, su, du, im, di⟩
  cases du <;> rfl

lemma feed_setDtIst (now_ist : Time) (it : Item) :
    (setDtIst now_ist it).feed = it.feed := by
  rcases it with ⟨s, f, t, l, su, du, im, di⟩
  cases du <;> rfl

lemma dt_ist_setDtIst (now_ist : Time) (it : Item) :
    (setDtIst now_ist it).dt_ist = some (it.dt_utc.getD now_ist) := by
  rcases it with ⟨s, f, t, l, su, du, im, di⟩
  cases du <;> rfl

lemma setDtIst_setDtIst (now_ist : Time) (it : Item) :
    setDtIst now_ist (setDtIst now_ist it) = setDtIst now_ist it := by
  rcases it with ⟨s, f, t, l, su, du, im, di⟩
  cases du <;> rfl

lemma setDtIst_clearDtIst (now_ist : Time) (it : Item) :
    setDtIst now_ist (clearDtIst it) = setDtIst now_ist it := by
  rcases it with ⟨s, f, t, l, su, du, im, di⟩
  cases du <;> rfl

lemma clearDtIst_setDtIst (now_ist : Time) (it : Item) :
    clearDtIst (setDtIst now_ist it) = clearDtIst it := by
  rcases it with ⟨s, f, t, l, su, du, im, di⟩
  cases du <;> rfl

lemma annotate_annotate (now_ist : Time) (items : List Item) :
    annotate now_ist (annotate now_ist items) = annotate now_ist items := by
  simp only [annotate, List.map_map]
  exact List.map_congr_left (fun it _ => setDtIst_setDtIst now_ist it)

lemma annotate_map_clearDtIst (now_ist : Time) (items : List Item) :
    annotate now_ist (items.map clearDtIst) = annotate now_ist items := by
  simp only [annotate, List.map_map]
  exact List.map_congr_left (fun it _ => setDtIst_clearDtIst now_ist it)

lemma map_itemKey_annotate (now_ist : Time) (items : List Item) :
    (annotate now_ist items).map itemKey = items.map itemKey := by
  simp only [annotate, List.map_map]
  exact List.map_congr_left (fun it _ => itemKey_setDtIst now_ist it)

lemma countFeed_append (f : String) (l₁ l₂ : List Item) :
    countFeed f (l₁ ++ l₂) = countFeed f l₁ + countFeed f l₂ := by
  simp [countFeed, List.filter_append]

lemma countOldFeed_append (f : String) (cutoff : Time) (l₁ l₂ : List Item) :
    countOldFeed f cutoff (l₁ ++ l₂) = countOldFeed f cutoff l₁ + countOldFeed f cutoff l₂ := by
  simp [countOldFeed, List.filter_append]

lemma countFeed_annotate (f : String) (now_ist : Time) (items : List Item) :
    countFeed f (annotate now_ist items) = countFeed f items := by
  induction items with
  | nil => rfl
  | cons it rest ih =>
    simp only [annotate, List.map_cons] at ih ⊢
    simp [countFeed, List.filter_cons, feed_setDtIst] at ih ⊢
    by_cases h : it.feed = f <;> simp [h, ih]

lemma countFeed_perm {l₁ l₂ : List Item} (h : l₁.Perm l₂) (f : String) :
    countFeed f l₁ = countFeed f l₂ := by
  simpa [countFeed] using (h.filter (fun it => decide (it.feed = f))).length_eq

lemma countOldFeed_perm {l₁ l₂ : List Item} (h : l₁.Perm l₂) (f : String) (cutoff : Time) :
    countOldFeed f cutoff l₁ = countOldFeed f cutoff l₂ := by
  simpa [countOldFeed] using
    (h.filter (fun it => decide (it.feed = f) && decide (dtIst it < cutoff))).length_eq

lemma filter_length_split {α : Type} (p : α → Bool) (l : List α) :
    (l.filter p).length + (l.filter (fun a => !p a)).length = l.length := by
  induction l with
  | nil => rfl
  | cons a l ih => cases h : p a <;> simp [List.filter_cons, h] <;> omega

lemma seenInv_extend (final : List Item) (seen : List (String × String)) (cand : Item)
    (hinv : ∀ key, key ∈ seen ↔ key ∈ final.map itemKey) :
    ∀ key, key ∈ itemKey cand :: seen ↔ key ∈ (final ++ [cand]).map itemKey := by
  intro k
  simp only [List.mem_cons, hinv k, List.map_append, List.mem_append, List.map_cons,
    List.map_nil, List.mem_singleton]
  tauto

lemma fallbackLoop_extra (limit : Nat) (cands : List Item) :
    ∀ final seen already, ∃ extra,
      (fallbackLoop limit cands final seen already).1 = final ++ extra ∧
      extra.Sublist cands ∧
      (already < limit → already + extra.length ≤ limit) := by
  induction cands with
  | nil =>
    intro final seen already
    exact ⟨[], by simp [fallbackLoop], List.nil_sublist _,
      fun h => by simp only [List.length_nil]; omega⟩
  | cons cand rest ih =>
    intro final seen already
    by_cases hmem : itemKey cand ∈ seen
    · obtain ⟨extra, h1, h2, h3⟩ := ih final seen already
      exact ⟨extra, by simpa [fallbackLoop, hmem] using h1, h2.cons cand, h3⟩
    · by_cases hlim : limit ≤ already + 1
      · refine ⟨[cand], by simp [fallbackLoop, hmem, hlim], (List.nil_sublist rest).cons₂ cand, ?_⟩
        intro h
        simp only [List.length_singleton]
        omega
      · obtain ⟨extra, h1, h2, h3⟩ := ih (final ++ [cand]) (itemKey cand :: seen) (already + 1)
        refine ⟨cand :: extra, ?_, h2.cons₂ cand, ?_⟩
        · simp only [fallbackLoop, if_neg hmem, if_neg hlim, h1, List.append_assoc,
            List.singleton_append]
        · intro h
          have h4 := h3 (by omega)
          simp only [List.length_cons]
          omega

lemma fallbackLoop_seenInv (limit : Nat) (cands : List Item) :
    ∀ final seen already,
      (∀ key, key ∈ seen ↔ key ∈ final.map itemKey) →
      ∀ key, key ∈ (fallbackLoop limit cands final seen already).2 ↔
        key ∈ (fallbackLoop limit cands final seen already).1.map itemKey := by
  induction cands with
  | nil => intro final seen already hinv key; simpa [fallbackLoop] using hinv key
  | cons cand rest ih =>
    intro final seen already hinv key
    by_cases hmem : itemKey cand ∈ seen
    · simpa [fallbackLoop, hmem] using ih final seen already hinv key
    · by_cases hlim : limit ≤ already + 1
      · simpa [fallbackLoop, hmem, hlim] using seenInv_extend final seen cand hinv key
      · simpa [fallbackLoop, hmem, hlim] using
          ih (final ++ [cand]) (itemKey cand :: seen) (already + 1)
            (seenInv_extend final seen cand hinv) key

lemma fallbackLoop_nodupKeys (limit : Nat) (cands : List Item) :
    ∀ final seen already,
      (∀ key, key ∈ seen ↔ key ∈ final.map itemKey) →
      (final.map itemKey).Nodup →
      ((fallbackLoop limit cands final seen already).1.map itemKey).Nodup := by
  induction cands with
  | nil => intro final seen already _ hnd; simpa [fallbackLoop] using hnd
  | cons cand rest ih =>
    intro final seen already hinv hnd
    by_cases hmem : itemKey cand ∈ seen
    · simpa [fallbackLoop, hmem] using ih final seen already hinv hnd
    · have hnot : itemKey cand ∉ final.map itemKey := fun h => hmem ((hinv _).mpr h)
      have hnd' : ((final ++ [cand]).map itemKey).Nodup := by
        simp [List.nodup_append, hnd, hnot]
      by_cases hlim : limit ≤ already + 1
      · simpa [fallbackLoop, hmem, hlim] using hnd'
      · simpa [fallbackLoop, hmem, hlim] using
          ih (final ++ [cand]) (itemKey cand :: seen) (already + 1)
            (seenInv_extend final seen cand hinv) hnd'

lemma sortNewestFirst_perm (l : List Item) : (sortNewestFirst l).Perm l :=
  List.perm_insertionSort newerFirst l

lemma sortNewestFirst_sorted (l : List Item) : (sortNewestFirst l).Pairwise newerFirst :=
  List.sorted_insertionSort newerFirst l

lemma fallbackLoop_countFeed (limit : Nat) (f : String) (cands : List Item) :
    ∀ final seen already,
      (∀ c ∈ cands, c.feed = f) →
      (cands.map itemKey).Nodup →
      countFeed f final = already →
      already < limit →
      countFeed f (fallbackLoop limit cands final seen already).1 =
        min limit (already + (cands.filter (fun c => !decide (itemKey c ∈ seen))).length) := by
  induction cands with
  | nil =>
    intro final seen already _ _ hcount hlt
    simp only [fallbackLoop, List.filter_nil, List.length_nil, Nat.add_zero]
    rw [hcount]
    omega
  | cons cand rest ih =>
    intro final seen already hall hnd hcount hlt
    have hfeed : cand.feed = f := hall cand (by simp)
    have hndr : (rest.map itemKey).Nodup := by
      simpa using (List.nodup_cons.mp (by simpa using hnd)).2
    have hallr : ∀ c ∈ rest, c.feed = f := fun c hc => hall c (by simp [hc])
    by_cases hmem : itemKey cand ∈ seen
    · have hd : decide (itemKey cand ∈ seen) = true := decide_eq_true hmem
      have hstep : (fallbackLoop limit (cand :: rest) final seen already).1
          = (fallbackLoop limit rest final seen already).1 := by
        simp [fallbackLoop, hmem]
      have hfcons : (cand :: rest).filter (fun c => !decide (itemKey c ∈ seen))
          = rest.filter (fun c => !decide (itemKey c ∈ seen)) := by
        simp [List.filter_cons, hd]
      have hrec := ih final seen already hallr hndr hcount hlt
      rw [hstep, hfcons, hrec]
    · have hd : decide (itemKey cand ∈ seen) = false := decide_eq_false hmem
      have hconslen : ((cand :: rest).filter (fun c => !decide (itemKey c ∈ seen))).length
          = (rest.filter (fun c => !decide (itemKey c ∈ seen))).length + 1 := by
        simp [List.filter_cons, hd]
      have hcount' : countFeed f (final ++ [cand]) = already + 1 := by
        rw [countFeed_append, hcount]
        simp [countFeed, List.filter_cons, hfeed]
      by_cases hlim : limit ≤ already + 1
      · have hstep : (fallbackLoop limit (cand :: rest) final seen already).1
            = final ++ [cand] := by
          simp [fallbackLoop, hmem, hlim]
        rw [hstep, hcount', hconslen]
        omega
      · have hne : ∀ r ∈ rest, itemKey r ≠ itemKey cand := by
          intro r hr heq
          have hm : itemKey cand ∈ rest.map itemKey := heq ▸ List.mem_map_of_mem itemKey hr
          exact (List.nodup_cons.mp (by simpa using hnd)).1 hm
        have hfilter : rest.filter (fun c => !decide (itemKey c ∈ itemKey cand :: seen)) =
            rest.filter (fun c => !decide (itemKey c ∈ seen)) := by
          apply List.filter_congr
          intro r hr
          simp [List.mem_cons, hne r hr]
        have hstep : (fallbackLoop limit (cand :: rest) final seen already).1
            = (fallbackLoop limit rest (final ++ [cand]) (itemKey cand :: seen) (already + 1)).1 := by
          simp [fallbackLoop, hmem, hlim]
        have hrec := ih (final ++ [cand]) (itemKey cand :: seen) (already + 1)
          hallr hndr hcount' (by omega)
        rw [hfilter] at hrec
        rw [hstep, hrec, hconslen]
        omega

lemma feedFloorStep_extra (limit : Nat) (A : List Item)
    (st : List Item × List (String × String)) (g : String) :
    ∃ extra, (feedFloorStep limit A st g).1 = st.1 ++ extra ∧
      (∀ e ∈ extra, e.feed = g ∧ e ∈ A) ∧
      extra.length ≤ limit - countFeed g st.1 := by
  by_cases hempty : (A.filter (fun it => decide (it.feed = g))).isEmpty
  · exact ⟨[], by simp [feedFloorStep, hempty], by simp, by simp⟩
  · by_cases hlim : limit ≤ (st.1.filter (fun it => decide (it.feed = g))).length
    · exact ⟨[], by simp [feedFloorStep, hempty, hlim], by simp, by simp⟩
    · obtain ⟨extra, h1, h2, h3⟩ := fallbackLoop_extra limit
        (sortNewestFirst (A.filter (fun it => decide (it.feed = g)))) st.1 st.2
        ((st.1.filter (fun it => decide (it.feed = g))).length)
      have hstep : (feedFloorStep limit A st g).1 = (fallbackLoop limit
          (sortNewestFirst (A.filter (fun it => decide (it.feed = g)))) st.1 st.2
          ((st.1.filter (fun it => decide (it.feed = g))).length)).1 := by
        simp [feedFloorStep, hempty, hlim]
      refine ⟨extra, by rw [hstep, h1], ?_, ?_⟩
      · intro e he
        have hmem : e ∈ sortNewestFirst (A.filter (fun it => decide (it.feed = g))) :=
          h2.subset he
        have hmem2 : e ∈ A.filter (fun it => decide (it.feed = g)) :=
          (sortNewestFirst_perm _).subset hmem
        have h5 := List.mem_filter.mp hmem2
        exact ⟨by simpa using h5.2, h5.1⟩
      · have h4 := h3 (by omega)
        have h5 : countFeed g st.1 = (st.1.filter (fun it => decide (it.feed = g))).length := rfl
        omega

lemma feedFloorStep_seenInv (limit : Nat) (A : List Item)
    (st : List Item × List (String × String)) (g : String)
    (hinv : ∀ key, key ∈ st.2 ↔ key ∈ st.1.map itemKey) :
    ∀ key, key ∈ (feedFloorStep limit A st g).2 ↔
      key ∈ (feedFloorStep limit A st g).1.map itemKey := by
  by_cases hempty : (A.filter (fun it => decide (it.feed = g))).isEmpty
  · have hstep : feedFloorStep limit A st g = st := by simp [feedFloorStep, hempty]
    rw [hstep]; exact hinv
  · by_cases hlim : limit ≤ (st.1.filter (fun it => decide (it.feed = g))).length
    · have hstep : feedFloorStep limit A st g = st := by simp [feedFloorStep, hempty, hlim]
      rw [hstep]; exact hinv
    · have hstep : feedFloorStep limit A st g = fallbackLoop limit
          (sortNewestFirst (A.filter (fun it => decide (it.feed = g)))) st.1 st.2
          ((st.1.filter (fun it => decide (it.feed = g))).length) := by
        simp [feedFloorStep, hempty, hlim]
      rw [hstep]
      exact fallbackLoop_seenInv limit _ st.1 st.2 _ hinv

lemma feedFloorStep_nodupKeys (limit : Nat) (A : List Item)
    (st : List Item × List (String × String)) (g : String)
    (hinv : ∀ key, key ∈ st.2 ↔ key ∈ st.1.map itemKey)
    (hnd : (st.1.map itemKey).Nodup) :
    ((feedFloorStep limit A st g).1.map itemKey).Nodup := by
  by_cases hempty : (A.filter (fun it => decide (it.feed = g))).isEmpty
  · have hstep : feedFloorStep limit A st g = st := by simp [feedFloorStep, hempty]
    rw [hstep]; exact hnd
  · by_cases hlim : limit ≤ (st.1.filter (fun it => decide (it.feed = g))).length
    · have hstep : feedFloorStep limit A st g = st := by simp [feedFloorStep, hempty, hlim]
      rw [hstep]; exact hnd
    · have hstep : feedFloorStep limit A st g = fallbackLoop limit
          (sortNewestFirst (A.filter (fun it => decide (it.feed = g)))) st.1 st.2
          ((st.1.filter (fun it => decide (it.feed = g))).length) := by
        simp [feedFloorStep, hempty, hlim]
      rw [hstep]
      exact fallbackLoop_nodupKeys limit _ st.1 st.2 _ hinv hnd

lemma feedFloorStep_floor (limit : Nat) (A : List Item)
    (st : List Item × List (String × String)) (f : String)
    (hinv : ∀ key, key ∈ st.2 ↔ key ∈ st.1.map itemKey)
    (hA : (A.map itemKey).Nodup)
    (hne : A.filter (fun it => decide (it.feed = f)) ≠ []) :
    min limit (countFeed f A) ≤ countFeed f (feedFloorStep limit A st f).1 := by
  have hempty : ¬ (A.filter (fun it => decide (it.feed = f))).isEmpty = true := by
    simpa [List.isEmpty_iff] using hne
  by_cases hlim : limit ≤ (st.1.filter (fun it => decide (it.feed = f))).length
  · have hstep : feedFloorStep limit A st f = st := by simp [feedFloorStep, hempty, hlim]
    rw [hstep]
    exact le_trans (min_le_left _ _) hlim
  · have hstep : (feedFloorStep limit A st f).1 = (fallbackLoop limit
        (sortNewestFirst (A.filter (fun it => decide (it.feed = f)))) st.1 st.2
        ((st.1.filter (fun it => decide (it.feed = f))).length)).1 := by
      simp [feedFloorStep, hempty, hlim]
    have hperm : (sortNewestFirst (A.filter (fun it => decide (it.feed = f)))).Perm
        (A.filter (fun it => decide (it.feed = f))) := sortNewestFirst_perm _
    have hall : ∀ c ∈ sortNewestFirst (A.filter (fun it => decide (it.feed = f))), c.feed = f := by
      intro c hc
      have h5 := List.mem_filter.mp (hperm.subset hc)
      simpa using h5.2
    have hndf : ((A.filter (fun it => decide (it.feed = f))).map itemKey).Nodup :=
      hA.sublist ((List.filter_sublist A).map itemKey)
    have hndc : ((sortNewestFirst (A.filter (fun it => decide (it.feed = f)))).map itemKey).Nodup :=
      ((hperm.map itemKey).symm).nodup hndf
    have hcount := fallbackLoop_countFeed limit f
      (sortNewestFirst (A.filter (fun it => decide (it.feed = f)))) st.1 st.2
      ((st.1.filter (fun it => decide (it.feed = f))).length) hall hndc (by rfl) (by omega)
    rw [hstep, hcount]
    have hsubl : List.Sublist
        ((sortNewestFirst (A.filter (fun it => decide (it.feed = f)))).filter
          (fun c => decide (itemKey c ∈ st.2)))
        (sortNewestFirst (A.filter (fun it => decide (it.feed = f)))) := List.filter_sublist _
    have hndS : (((sortNewestFirst (A.filter (fun it => decide (it.feed = f)))).filter
        (fun c => decide (itemKey c ∈ st.2))).map itemKey).Nodup :=
      hndc.sublist (hsubl.map itemKey)
    have hsubset : ((sortNewestFirst (A.filter (fun it => decide (it.feed = f)))).filter
        (fun c => decide (itemKey c ∈ st.2))).map itemKey ⊆
        (st.1.filter (fun it => decide (it.feed = f))).map itemKey := by
      intro key hkey
      obtain ⟨c, hc, hck⟩ := List.mem_map.mp hkey
      have hcmem : c ∈ sortNewestFirst (A.filter (fun it => decide (it.feed = f))) :=
        hsubl.subset hc
      have hcfeed : c.feed = f := hall c hcmem
      have hcseen : itemKey c ∈ st.2 := by
        have h6 := (List.mem_filter.mp hc).2
        simpa using h6
      obtain ⟨it, hit, hkeq⟩ := List.mem_map.mp ((hinv _).mp hcseen)
      have hitf : it.feed = f := by
        have h7 : it.feed = c.feed := by
          simpa [itemKey] using congrArg Prod.fst hkeq
        rw [h7, hcfeed]
      refine List.mem_map.mpr ⟨it, ?_, by rw [hkeq, hck]⟩
      exact List.mem_filter.mpr ⟨hit, by simpa using hitf⟩
    have hlen : ((sortNewestFirst (A.filter (fun it => decide (it.feed = f)))).filter
        (fun c => decide (itemKey c ∈ st.2))).length ≤
        (st.1.filter (fun it => decide (it.feed = f))).length := by
      have h8 := (List.subperm_of_subset hndS hsubset).length_le
      simpa using h8
    have hsplit := filter_length_split (fun c => decide (itemKey c ∈ st.2))
      (sortNewestFirst (A.filter (fun it => decide (it.feed = f))))
    have hlenA : (sortNewestFirst (A.filter (fun it => decide (it.feed = f)))).length
        = countFeed f A := hperm.length_eq
    have hbound : countFeed f A ≤
        (st.1.filter (fun it => decide (it.feed = f))).length +
        ((sortNewestFirst (A.filter (fun it => decide (it.feed = f)))).filter
          (fun c => !decide (itemKey c ∈ st.2))).length := by
      omega
    exact min_le_min (le_refl limit) hbound

lemma foldSteps_seenInv (limit : Nat) (A : List Item) :
    ∀ (fs : List String) (st : List Item × List (String × String)),
      (∀ key, key ∈ st.2 ↔ key ∈ st.1.map itemKey) →
      ∀ key, key ∈ (fs.foldl (feedFloorStep limit A) st).2 ↔
        key ∈ (fs.foldl (feedFloorStep limit A) st).1.map itemKey := by
  intro fs
  induction fs with
  | nil => intro st hinv; simpa using hinv
  | cons g fs ih =>
    intro st hinv
    exact ih (feedFloorStep limit A st g) (feedFloorStep_seenInv limit A st g hinv)

lemma foldSteps_nodupKeys (limit : Nat) (A : List Item) :
    ∀ (fs : List String) (st : List Item × List (String × String)),
      (∀ key, key ∈ st.2 ↔ key ∈ st.1.map itemKey) →
      (st.1.map itemKey).Nodup →
      ((fs.foldl (feedFloorStep limit A) st).1.map itemKey).Nodup := by
  intro fs
  induction fs with
  | nil => intro st _ hnd; simpa using hnd
  | cons g fs ih =>
    intro st hinv hnd
    exact ih (feedFloorStep limit A st g) (feedFloorStep_seenInv limit A st g hinv)
      (feedFloorStep_nodupKeys limit A st g hinv hnd)

lemma foldSteps_countFeed_mono (limit : Nat) (A : List Item) (f : String) :
    ∀ (fs : List String) (st : List Item × List (String × String)),
      countFeed f st.1 ≤ countFeed f (fs.foldl (feedFloorStep limit A) st).1 := by
  intro fs
  induction fs with
  | nil => intro st; simp
  | cons g fs ih =>
    intro st
    refine le_trans ?_ (ih (feedFloorStep limit A st g))
    obtain ⟨extra, h1, _, _⟩ := feedFloorStep_extra limit A st g
    rw [h1, countFeed_append]
    omega

lemma foldSteps_subset (limit : Nat) (A : List Item) :
    ∀ (fs : List String) (st : List Item × List (String × String)),
      (∀ it ∈ st.1, it ∈ A) →
      ∀ it ∈ (fs.foldl (feedFloorStep limit A) st).1, it ∈ A := by
  intro fs
  induction fs with
  | nil => intro st hsub; simpa using hsub
  | cons g fs ih =>
    intro st hsub
    refine ih (feedFloorStep limit A st g) ?_
    obtain ⟨extra, h1, h2, _⟩ := feedFloorStep_extra limit A st g
    rw [h1]
    intro it hit
    rcases List.mem_append.mp hit with h | h
    · exact hsub it h
    · exact (h2 it h).2

lemma foldSteps_countOld_notMem (limit : Nat) (A : List Item) (f : String) (cutoff : Time) :
    ∀ (fs : List String) (st : List Item × List (String × String)), f ∉ fs →
      countOldFeed f cutoff (fs.foldl (feedFloorStep limit A) st).1 =
        countOldFeed f cutoff st.1 := by
  intro fs
  induction fs with
  | nil => intro st _; simp
  | cons g fs ih =>
    intro st hnotin
    have hgf : g ≠ f := fun h => hnotin (by simp [h])
    have hrest : f ∉ fs := fun h => hnotin (by simp [h])
    rw [List.foldl_cons, ih (feedFloorStep limit A st g) hrest]
    obtain ⟨extra, h1, h2, _⟩ := feedFloorStep_extra limit A st g
    rw [h1, countOldFeed_append]
    have hz : countOldFeed f cutoff extra = 0 := by
      have hfil : extra.filter (fun it => decide (it.feed = f) && decide (dtIst it < cutoff)) = [] := by
        rw [List.filter_eq_nil_iff]
        intro e he
        have hef : e.feed = g := (h2 e he).1
        simp [hef, hgf]
      simp [countOldFeed, hfil]
    omega

lemma seedOf_nodupKeys (now_ist : Time) (items : List Item)
    (h : (items.map itemKey).Nodup) : ((seedOf now_ist items).map itemKey).Nodup := by
  have hA : ((annotate now_ist items).map itemKey).Nodup := by
    rw [map_itemKey_annotate]; exact h
  have hw : ((withinWindow now_ist items).map itemKey).Nodup :=
    hA.sublist ((List.filter_sublist _).map itemKey)
  exact (((sortNewestFirst_perm _).map itemKey).symm).nodup hw

lemma seedOf_subset (now_ist : Time) (items : List Item) :
    ∀ it ∈ seedOf now_ist items, it ∈ annotate now_ist items := by
  intro it hit
  exact (List.filter_sublist _).subset ((sortNewestFirst_perm _).subset hit)

lemma trim_none (l : List Item) : trim none l = l := rfl

lemma trim_some (n : Nat) (l : List Item) :
    trim (some n) l = if n < l.length then l.take n else l := rfl

lemma foldSteps_empty_pool (limit : Nat) :
    ∀ (fs : List String) (st : List Item × List (String × String)),
      fs.foldl (feedFloorStep limit []) st = st := by
  intro fs
  induction fs with
  | nil => intro st; rfl
  | cons g fs ih =>
    intro st
    have hstep : feedFloorStep limit [] st g = st := by simp [feedFloorStep]
    rw [List.foldl_cons, hstep, ih]

lemma seedOf_countOld (f : String) (now_ist : Time) (items : List Item) :
    countOldFeed f (now_ist - HOURS_WINDOW * 3600) (seedOf now_ist items) = 0 := by
  unfold seedOf
  rw [countOldFeed_perm (sortNewestFirst_perm _) f _]
  have hfil : (withinWindow now_ist items).filter
      (fun it => decide (it.feed = f) && decide (dtIst it < now_ist - HOURS_WINDOW * 3600)) = [] := by
    rw [List.filter_eq_nil_iff]
    intro it hit
    have h3 : it ∈ (annotate now_ist items).filter
        (fun it => decide (now_ist - HOURS_WINDOW * 3600 ≤ dtIst it)) := hit
    have h4 : now_ist - HOURS_WINDOW * 3600 ≤ dtIst it :=
      of_decide_eq_true (List.mem_filter.mp h3).2
    simp only [Bool.and_eq_true, decide_eq_true_eq, not_and]
    exact fun _ => not_lt.mpr h4
  simp [countOldFeed, hfil]

lemma countOldFeed_of_sublist {l₁ l₂ : List Item} (h : List.Sublist l₁ l₂)
    (f : String) (cutoff : Time) : countOldFeed f cutoff l₁ ≤ countOldFeed f cutoff l₂ := by
  simpa [countOldFeed] using
    (h.filter (fun it => decide (it.feed = f) && decide (dtIst it < cutoff))).length_le

lemma filter_core_nodupKeys (feeds : List String) (now_ist : Time) (items : List Item)
    (k : Nat) (h : (items.map itemKey).Nodup) :
    ((filter_core feeds now_ist items k).map itemKey).Nodup := by
  have hseed := seedOf_nodupKeys now_ist items h
  have hfold := foldSteps_nodupKeys k (annotate now_ist items) feeds
    (seedOf now_ist items, (seedOf now_ist items).map itemKey) (fun key => Iff.rfl) hseed
  exact (((sortNewestFirst_perm _).map itemKey).symm).nodup hfold

lemma filter_core_subset_annotate (feeds : List String) (now_ist : Time) (items : List Item)
    (k : Nat) : ∀ it ∈ filter_core feeds now_ist items k, it ∈ annotate now_ist items := by
  intro it hit
  have h2 : it ∈ (feeds.foldl (feedFloorStep k (annotate now_ist items))
      (seedOf now_ist items, (seedOf now_ist items).map itemKey)).1 :=
    (sortNewestFirst_perm _).subset hit
  exact foldSteps_subset k (annotate now_ist items) feeds
    (seedOf now_ist items, (seedOf now_ist items).map itemKey)
    (seedOf_subset now_ist items) it h2

lemma filter_last_window_subset_core (feeds : List String) (now_ist : Time) (items : List Item)
    (k : Nat) (gl : Option Nat) :
    ∀ it ∈ filter_last_window feeds now_ist items k gl, it ∈ filter_core feeds now_ist items k := by
  intro it hit
  unfold filter_last_window at hit
  cases gl with
  | none => rw [trim_none] at hit; exact hit
  | some n =>
    rw [trim_some] at hit
    by_cases h : n < (filter_core feeds now_ist items k).length
    · rw [if_pos h] at hit
      exact List.take_subset _ _ hit
    · rw [if_neg h] at hit
      exact hit

lemma filter_core_nil (feeds : List String) (now_ist : Time) (k : Nat) :
    filter_core feeds now_ist [] k = [] := by
  unfold filter_core seedOf withinWindow annotate
  simp only [List.map_nil, List.filter_nil]
  have h0 : sortNewestFirst [] = ([] : List Item) := rfl
  rw [h0]
  rw [foldSteps_empty_pool k feeds ([], List.map itemKey [])]
  rfl

lemma trim_nil (gl : Option Nat) : trim gl [] = [] := by
  cases gl <;> simp [trim]

/-- C3: the selection returned by filter_last_window is sorted newest
first by the derived local timestamp; adjacent entries are ordered by
dt_ist descending (src/app.py lines 219-223: final sort, then an initial segment
is taken). -/
theorem filter_last_window_sorted (feeds : List String) (now_ist : Time) (items : List Item)
    (fallback_limit_per_feed : Nat) (global_limit : Option Nat) :
    (filter_last_window feeds now_ist items fallback_limit_per_feed global_limit).Chain'
      (fun a b => dtIst b ≤ dtIst a) := by
  have hs : (filter_core feeds now_ist items fallback_limit_per_feed).Pairwise newerFirst :=
    sortNewestFirst_sorted _
  have ht : (filter_last_window feeds now_ist items
      fallback_limit_per_feed global_limit).Pairwise newerFirst := by
    unfold filter_last_window
    cases global_limit with
    | none => rw [trim_none]; exact hs
    | some n =>
      rw [trim_some]
      by_cases h : n < (filter_core feeds now_ist items fallback_limit_per_feed).length
      · rw [if_pos h]
        exact hs.sublist (List.take_sublist _ _)
      · rw [if_neg h]
        exact hs
  exact ht.chain'

/-- C6: with global_limit set, the output never exceeds it in length, and
whenever the pre-cap selection is longer than the limit the output is
exactly its first global_limit entries, the most recent ones of the
globally sorted result (src/app.py lines 222-223). -/
theorem filter_last_window_cap (feeds : List String) (now_ist : Time) (items : List Item)
    (fallback_limit_per_feed n : Nat) :
    (filter_last_window feeds now_ist items fallback_limit_per_feed (some n)).length ≤ n ∧
    (n < (filter_core feeds now_ist items fallback_limit_per_feed).length →
      filter_last_window feeds now_ist items fallback_limit_per_feed (some n) =
        (filter_core feeds now_ist items fallback_limit_per_feed).take n) := by
  constructor
  · unfold filter_last_window
    rw [trim_some]
    by_cases h : n < (filter_core feeds now_ist items fallback_limit_per_feed).length
    · rw [if_pos h]
      simp
    · rw [if_neg h]
      omega
  · intro h
    unfold filter_last_window
    rw [trim_some, if_pos h]

lemma filter_core_annotate (feeds : List String) (now_ist : Time) (items : List Item) (k : Nat) :
    filter_core feeds now_ist (annotate now_ist items) k = filter_core feeds now_ist items k := by
  unfold filter_core seedOf withinWindow
  rw [annotate_annotate]

/-- C8: selection is deterministic in (pool, parameters, now).  The first
run leaves the pool records annotated with dt_ist (poolAfterRun); a
second run on that same pool with the same now reproduces the output
exactly, because the assignment loop rewrites each dt_ist to the same
value it already holds. -/
theorem filter_last_window_deterministic (feeds : List String) (now_ist : Time)
    (items : List Item) (fallback_limit_per_feed : Nat) (global_limit : Option Nat) :
    filter_last_window feeds now_ist (poolAfterRun now_ist items)
        fallback_limit_per_feed global_limit =
      filter_last_window feeds now_ist items fallback_limit_per_feed global_limit := by
  unfold filter_last_window poolAfterRun
  rw [filter_core_annotate]

/-- C4 (amended): filter_last_window does mutate the item records of its
input pool in place, writing the dt_ist key of every item; apart from
that single key the records are untouched, no item is added to or removed
from the pool, and the selection ignores any dt_ist value the caller may
have set, so with a per-call snapshot the mutation is invisible to other
calls. -/
theorem filter_last_window_mutation_frame (feeds : List String) (now_ist : Time)
    (items : List Item) (fallback_limit_per_feed : Nat) (global_limit : Option Nat) :
    (poolAfterRun now_ist items).map clearDtIst = items.map clearDtIst ∧
    (poolAfterRun now_ist items).length = items.length ∧
    filter_last_window feeds now_ist (items.map clearDtIst)
        fallback_limit_per_feed global_limit =
      filter_last_window feeds now_ist items fallback_limit_per_feed global_limit := by
  refine ⟨?_, ?_, ?_⟩
  · unfold poolAfterRun annotate
    rw [List.map_map]
    exact List.map_congr_left (fun it _ => clearDtIst_setDtIst now_ist it)
  · unfold poolAfterRun annotate
    exact List.length_map _ _
  · unfold filter_last_window
    unfold filter_core seedOf withinWindow
    rw [annotate_map_clearDtIst]


/-- C4 counterexample: the pool's item records after a call are not the
records that were passed in; the call has written dt_ist into them. -/
theorem filter_last_window_mutates_counterexample :
    poolAfterRun 5 [itemNoStamp] ≠ [itemNoStamp] := by decide

lemma fetch_all_foldl_flatten (net : String → FetchResult) :
    ∀ (feeds : List (String × String)) (acc : List Item),
      feeds.foldl (fun all_items p => all_items ++ fetch_feed p.1 (net p.2)) acc =
        acc ++ (feeds.map (fun p => fetch_feed p.1 (net p.2))).flatten := by
  intro feeds
  induction feeds with
  | nil => intro acc; simp
  | cons p feeds ih =>
    intro acc
    simp only [List.foldl_cons, List.map_cons, List.flatten_cons]
    rw [ih, List.append_assoc]

/-- C9: a feed whose HTTP fetch fails, and a feed whose body parses to no
entries, both contribute the empty sequence; fetch_all is a total
function into plain lists, every feed contributing its fetch_feed result,
so no per-feed failure can abort the request (src/app.py lines 108-160). -/
theorem fetch_failure_swallowed (source_name message : String)
    (feeds : List (String × String)) (net : String → FetchResult) :
    fetch_feed source_name (FetchResult.httpError message) = [] ∧
    fetch_feed source_name (FetchResult.ok []) = [] ∧
    fetch_all feeds net = (feeds.map (fun p => fetch_feed p.1 (net p.2))).flatten := by
  refine ⟨rfl, rfl, ?_⟩
  unfold fetch_all
  simpa using fetch_all_foldl_flatten net feeds []

/-- C5: the derived dt_ist equals dt_utc (converted to the display
timezone, the identity on instants) when dt_utc is present, and the
current local time when it is absent; and every output entry is a pool
item annotated exactly this way (src/app.py lines 174-180). -/
theorem filter_last_window_dtist_derivation (feeds : List String) (now_ist : Time)
    (items : List Item) (fallback_limit_per_feed : Nat) (global_limit : Option Nat) :
    (∀ src ∈ items, (setDtIst now_ist src).dt_ist = some (src.dt_utc.getD now_ist)) ∧
    (∀ it ∈ filter_last_window feeds now_ist items fallback_limit_per_feed global_limit,
      ∃ src ∈ items, it = setDtIst now_ist src) := by
  constructor
  · intro src _
    exact dt_ist_setDtIst now_ist src
  · intro it hit
    have h1 : it ∈ filter_core feeds now_ist items fallback_limit_per_feed :=
      filter_last_window_subset_core feeds now_ist items fallback_limit_per_feed global_limit it hit
    have h3 : it ∈ annotate now_ist items :=
      filter_core_subset_annotate feeds now_ist items fallback_limit_per_feed it h1
    obtain ⟨src, hsrc, heq⟩ := List.mem_map.mp h3
    exact ⟨src, hsrc, heq.symm⟩

/-- C5 witness at a concrete timestampless item. -/
theorem filter_last_window_dtist_derivation_witness :
    (setDtIst 7 itemNoStamp).dt_ist = some (itemNoStamp.dt_utc.getD 7) :=
  (filter_last_window_dtist_derivation [] 7 [itemNoStamp] 1 none).1 itemNoStamp (by decide)

/-- C7: the selector is total: an empty pool yields an empty output for
any configuration; every dt_ist read inside the function happens on an
annotated item whose dt_ist is set (no KeyError is reachable); output
items keep their dt_ist set; and a zero-feed configuration degenerates to
the plain window filter, again without failure. -/
theorem filter_last_window_total_and_empty (feeds : List String) (now_ist : Time)
    (items : List Item) (fallback_limit_per_feed : Nat) (global_limit : Option Nat) :
    filter_last_window feeds now_ist [] fallback_limit_per_feed global_limit = [] ∧
    (∀ it ∈ annotate now_ist items, it.dt_ist.isSome) ∧
    (∀ it ∈ filter_last_window feeds now_ist items fallback_limit_per_feed global_limit,
      it.dt_ist.isSome) ∧
    filter_last_window [] now_ist items fallback_limit_per_feed global_limit =
      trim global_limit (sortNewestFirst (withinWindow now_ist items)) := by
  have hannot : ∀ it ∈ annotate now_ist items, it.dt_ist.isSome := by
    intro it hit
    obtain ⟨src, _, heq⟩ := List.mem_map.mp hit
    rw [← heq, dt_ist_setDtIst]
    rfl
  refine ⟨?_, hannot, ?_, ?_⟩
  · unfold filter_last_window
    rw [filter_core_nil, trim_nil]
  · intro it hit
    have h1 : it ∈ filter_core feeds now_ist items fallback_limit_per_feed :=
      filter_last_window_subset_core feeds now_ist items fallback_limit_per_feed global_limit it hit
    exact hannot it (filter_core_subset_annotate feeds now_ist items fallback_limit_per_feed it h1)
  · unfold filter_last_window filter_core seedOf
    rw [List.foldl_nil]
    have hsorted : List.Sorted newerFirst (sortNewestFirst (withinWindow now_ist items)) :=
      sortNewestFirst_sorted _
    rw [show sortNewestFirst (sortNewestFirst (withinWindow now_ist items)) =
        sortNewestFirst (withinWindow now_ist items) from hsorted.insertionSort_eq]

/-- C7 witness: empty pool gives empty output, and the concrete
timestampless item's record is annotated with a set dt_ist. -/
theorem filter_last_window_total_and_empty_witness :
    filter_last_window ["Moneycontrol"] 0 [] 1 (some 120) = [] ∧
    (setDtIst 0 itemNoStamp).dt_ist.isSome :=
  ⟨(filter_last_window_total_and_empty ["Moneycontrol"] 0 [itemNoStamp] 1 (some 120)).1,
   (filter_last_window_total_and_empty ["Moneycontrol"] 0 [itemNoStamp] 1 (some 120)).2.1
     (setDtIst 0 itemNoStamp) (by decide)⟩


/-- C1 (amended): when the input pool itself carries pairwise-distinct
(feed, link) keys, the selection contains no two entries sharing a key;
the key includes the feed name, so items of different feeds sharing a
link are distinct and may both appear.  The hypothesis is needed because
the code never de-duplicates the within-window seed (src/app.py line
189); only fallback insertions are checked against seen_keys. -/
theorem filter_last_window_dedup (feeds : List String) (now_ist : Time) (items : List Item)
    (fallback_limit_per_feed : Nat) (global_limit : Option Nat)
    (h : (items.map itemKey).Nodup) :
    (filter_last_window feeds now_ist items fallback_limit_per_feed global_limit).Pairwise
      (fun a b => itemKey a ≠ itemKey b) := by
  have hc := filter_core_nodupKeys feeds now_ist items fallback_limit_per_feed h
  have ht : ((filter_last_window feeds now_ist items fallback_limit_per_feed
      global_limit).map itemKey).Nodup := by
    unfold filter_last_window
    cases global_limit with
    | none => rw [trim_none]; exact hc
    | some n =>
      rw [trim_some]
      by_cases hl : n < (filter_core feeds now_ist items fallback_limit_per_feed).length
      · rw [if_pos hl]
        exact hc.sublist ((List.take_sublist _ _).map itemKey)
      · rw [if_neg hl]
        exact hc
  exact List.pairwise_map.mp ht

/-- C1 counterexample: a pool containing the same recent item twice keeps
both copies, because the within-window seed is not de-duplicated. -/
theorem filter_last_window_dedup_counterexample :
    ¬ (filter_last_window ["Moneycontrol"] 0 [itemRecent, itemRecent] 1 (some 120)).Pairwise
        (fun a b => itemKey a ≠ itemKey b) := by decide

/-- C1 witness: a distinct-key pool satisfies the hypothesis, and two
items of different feeds sharing one link both appear in the output. -/
theorem filter_last_window_dedup_witness :
    ([itemCrossA, itemCrossB].map itemKey).Nodup ∧
    (filter_last_window ["A", "B"] 0 [itemCrossA, itemCrossB] 1 (some 120)).Pairwise
      (fun a b => itemKey a ≠ itemKey b) ∧
    setDtIst 0 itemCrossA ∈ filter_last_window ["A", "B"] 0 [itemCrossA, itemCrossB] 1 (some 120) ∧
    setDtIst 0 itemCrossB ∈ filter_last_window ["A", "B"] 0 [itemCrossA, itemCrossB] 1 (some 120) :=
  ⟨by decide,
   filter_last_window_dedup ["A", "B"] 0 [itemCrossA, itemCrossB] 1 (some 120) (by decide),
   by decide, by decide⟩

/-- C2 (amended): for a pool whose items carry pairwise-distinct
(feed, link) keys, every configured feed with at least one pool item is
represented in the untrimmed selection (global_limit absent) by at least
min(fallback_limit_per_feed, its number of pool items), and the trimmed
output is exactly the first global_limit entries of that selection, so
the floor holds up to truncation by the cap; a feed with zero pool items
merely contributes nothing.  Without the distinct-keys hypothesis the
floor can fail, see the counterexample. -/
theorem filter_last_window_floor (feeds : List String) (now_ist : Time) (items : List Item)
    (fallback_limit_per_feed : Nat) (f : String)
    (hnd : (items.map itemKey).Nodup) (hf : f ∈ feeds)
    (hsome : 0 < countFeed f items) :
    min fallback_limit_per_feed (countFeed f items) ≤
      countFeed f (filter_last_window feeds now_ist items fallback_limit_per_feed none) ∧
    (∀ n, filter_last_window feeds now_ist items fallback_limit_per_feed (some n) =
      (filter_last_window feeds now_ist items fallback_limit_per_feed none).take n) := by
  constructor
  · have hA : ((annotate now_ist items).map itemKey).Nodup := by
      rw [map_itemKey_annotate]; exact hnd
    have hfa : countFeed f (annotate now_ist items) = countFeed f items :=
      countFeed_annotate f now_ist items
    have hne : (annotate now_ist items).filter (fun it => decide (it.feed = f)) ≠ [] := by
      intro hnil
      have hz : countFeed f (annotate now_ist items) = 0 := by
        simp [countFeed, hnil]
      omega
    obtain ⟨l₁, l₂, hsplit⟩ := List.append_of_mem hf
    have hinv1 := foldSteps_seenInv fallback_limit_per_feed (annotate now_ist items) l₁
      (seedOf now_ist items, (seedOf now_ist items).map itemKey) (fun key => Iff.rfl)
    have hfloor := feedFloorStep_floor fallback_limit_per_feed (annotate now_ist items)
      (l₁.foldl (feedFloorStep fallback_limit_per_feed (annotate now_ist items))
        (seedOf now_ist items, (seedOf now_ist items).map itemKey)) f hinv1 hA hne
    have hmono := foldSteps_countFeed_mono fallback_limit_per_feed (annotate now_ist items) f l₂
      (feedFloorStep fallback_limit_per_feed (annotate now_ist items)
        (l₁.foldl (feedFloorStep fallback_limit_per_feed (annotate now_ist items))
          (seedOf now_ist items, (seedOf now_ist items).map itemKey)) f)
    have hfold : feeds.foldl (feedFloorStep fallback_limit_per_feed (annotate now_ist items))
        (seedOf now_ist items, (seedOf now_ist items).map itemKey) =
        l₂.foldl (feedFloorStep fallback_limit_per_feed (annotate now_ist items))
          (feedFloorStep fallback_limit_per_feed (annotate now_ist items)
            (l₁.foldl (feedFloorStep fallback_limit_per_feed (annotate now_ist items))
              (seedOf now_ist items, (seedOf now_ist items).map itemKey)) f) := by
      rw [hsplit, List.foldl_append, List.foldl_cons]
    have hcore : countFeed f (filter_last_window feeds now_ist items fallback_limit_per_feed none)
        = countFeed f (feeds.foldl (feedFloorStep fallback_limit_per_feed (annotate now_ist items))
            (seedOf now_ist items, (seedOf now_ist items).map itemKey)).1 := by
      unfold filter_last_window
      rw [trim_none]
      unfold filter_core
      exact countFeed_perm (sortNewestFirst_perm _) f
    rw [hcore, hfold, ← hfa]
    exact le_trans hfloor hmono
  · intro n
    unfold filter_last_window
    rw [trim_none, trim_some]
    by_cases h : n < (filter_core feeds now_ist items fallback_limit_per_feed).length
    · rw [if_pos h]
    · rw [if_neg h, List.take_of_length_le (Nat.le_of_not_lt h)]

/-- C2 counterexample: a pool holding the same old item of one feed
twice; two items of that feed are available, yet only one is selected
because the second shares the de-duplication key, so the floor
min(2, 2) = 2 is missed. -/
theorem filter_last_window_floor_counterexample :
    ¬ (min 2 (countFeed "F2" [itemOld, itemOld]) ≤
        countFeed "F2" (filter_last_window ["F2"] 0 [itemOld, itemOld] 2 (some 120))) := by
  decide

/-- C2 witness: one feed with a single out-of-window item still reaches
its floor of one (scenario C of the spec). -/
theorem filter_last_window_floor_witness :
    ([itemOld].map itemKey).Nodup ∧ "F2" ∈ ["F2"] ∧ 0 < countFeed "F2" [itemOld] ∧
    min 1 (countFeed "F2" [itemOld]) ≤
      countFeed "F2" (filter_last_window ["F2"] 0 [itemOld] 1 none) :=
  ⟨by decide, by decide, by decide,
   (filter_last_window_floor ["F2"] 0 [itemOld] 1 "F2" (by decide) (by decide) (by decide)).1⟩

/-- C10: at most fallback_limit_per_feed entries of any one feed that are
strictly older than the cutoff appear in the output: the seed takes no
out-of-window item, only the fallback pass does, it runs once per
configured feed (the names are distinct) and stops at the floor. -/
theorem filter_last_window_old_bound (feeds : List String) (now_ist : Time)
    (items : List Item) (fallback_limit_per_feed : Nat) (global_limit : Option Nat)
    (f : String) (hnd : feeds.Nodup) :
    countOldFeed f (now_ist - HOURS_WINDOW * 3600)
      (filter_last_window feeds now_ist items fallback_limit_per_feed global_limit) ≤
      fallback_limit_per_feed := by
  have hsub : countOldFeed f (now_ist - HOURS_WINDOW * 3600)
      (filter_last_window feeds now_ist items fallback_limit_per_feed global_limit) ≤
      countOldFeed f (now_ist - HOURS_WINDOW * 3600)
        (filter_core feeds now_ist items fallback_limit_per_feed) := by
    unfold filter_last_window
    cases global_limit with
    | none => rw [trim_none]
    | some n =>
      rw [trim_some]
      by_cases h : n < (filter_core feeds now_ist items fallback_limit_per_feed).length
      · rw [if_pos h]
        exact countOldFeed_of_sublist (List.take_sublist _ _) f _
      · rw [if_neg h]
  have hcp : countOldFeed f (now_ist - HOURS_WINDOW * 3600)
      (filter_core feeds now_ist items fallback_limit_per_feed) =
      countOldFeed f (now_ist - HOURS_WINDOW * 3600)
        (feeds.foldl (feedFloorStep fallback_limit_per_feed (annotate now_ist items))
          (seedOf now_ist items, (seedOf now_ist items).map itemKey)).1 := by
    unfold filter_core
    exact countOldFeed_perm (sortNewestFirst_perm _) f _
  have hfoldbound : countOldFeed f (now_ist - HOURS_WINDOW * 3600)
      (feeds.foldl (feedFloorStep fallback_limit_per_feed (annotate now_ist items))
        (seedOf now_ist items, (seedOf now_ist items).map itemKey)).1 ≤
      fallback_limit_per_feed := by
    by_cases hf : f ∈ feeds
    · obtain ⟨l₁, l₂, hsplit⟩ := List.append_of_mem hf
      have hnd2 : (l₁ ++ f :: l₂).Nodup := hsplit ▸ hnd
      have hf1 : f ∉ l₁ := by
        have hdisj := (List.nodup_append.mp hnd2).2.2
        intro hmem
        exact hdisj hmem (List.mem_cons_self f l₂)
      have hf2 : f ∉ l₂ := by
        have hc2 := (List.nodup_append.mp hnd2).2.1
        exact (List.nodup_cons.mp hc2).1
      have h1 : countOldFeed f (now_ist - HOURS_WINDOW * 3600)
          (l₁.foldl (feedFloorStep fallback_limit_per_feed (annotate now_ist items))
            (seedOf now_ist items, (seedOf now_ist items).map itemKey)).1 = 0 := by
        rw [foldSteps_countOld_notMem fallback_limit_per_feed (annotate now_ist items) f
          (now_ist - HOURS_WINDOW * 3600) l₁
          (seedOf now_ist items, (seedOf now_ist items).map itemKey) hf1]
        exact seedOf_countOld f now_ist items
      obtain ⟨extra, he1, he2, he3⟩ := feedFloorStep_extra fallback_limit_per_feed
        (annotate now_ist items)
        (l₁.foldl (feedFloorStep fallback_limit_per_feed (annotate now_ist items))
          (seedOf now_ist items, (seedOf now_ist items).map itemKey)) f
      have h2 : countOldFeed f (now_ist - HOURS_WINDOW * 3600)
          (feedFloorStep fallback_limit_per_feed (annotate now_ist items)
            (l₁.foldl (feedFloorStep fallback_limit_per_feed (annotate now_ist items))
              (seedOf now_ist items, (seedOf now_ist items).map itemKey)) f).1 ≤
          fallback_limit_per_feed := by
        rw [he1, countOldFeed_append, h1]
        have h4 : countOldFeed f (now_ist - HOURS_WINDOW * 3600) extra ≤ extra.length := by
          simpa [countOldFeed] using List.length_filter_le
            (fun it => decide (it.feed = f) &&
              decide (dtIst it < now_ist - HOURS_WINDOW * 3600)) extra
        omega
      have h3 := foldSteps_countOld_notMem fallback_limit_per_feed (annotate now_ist items) f
        (now_ist - HOURS_WINDOW * 3600) l₂
        (feedFloorStep fallback_limit_per_feed (annotate now_ist items)
          (l₁.foldl (feedFloorStep fallback_limit_per_feed (annotate now_ist items))
            (seedOf now_ist items, (seedOf now_ist items).map itemKey)) f) hf2
      rw [hsplit, List.foldl_append, List.foldl_cons, h3]
      exact h2
    · rw [foldSteps_countOld_notMem fallback_limit_per_feed (annotate now_ist items) f
        (now_ist - HOURS_WINDOW * 3600) feeds
        (seedOf now_ist items, (seedOf now_ist items).map itemKey) hf, seedOf_countOld]
      omega
  exact le_trans hsub (hcp ▸ hfoldbound)

/-- C10 witness at a concrete one-feed configuration. -/
theorem filter_last_window_old_bound_witness :
    countOldFeed "F2" (0 - HOURS_WINDOW * 3600)
      (filter_last_window ["F2"] 0 [itemOld] 1 (some 120)) ≤ 1 :=
  filter_last_window_old_bound ["F2"] 0 [itemOld] 1 (some 120) "F2" (by decide)

/-- C6 witness: two qualifying items, cap of one: the output length is
one and equals the first entry of the sorted uncapped selection. -/
theorem filter_last_window_cap_witness :
    (filter_last_window ["A", "B"] 0 [itemCrossA, itemCrossB] 1 (some 1)).length ≤ 1 ∧
    filter_last_window ["A", "B"] 0 [itemCrossA, itemCrossB] 1 (some 1) =
      (filter_core ["A", "B"] 0 [itemCrossA, itemCrossB] 1).take 1 :=
  ⟨(filter_last_window_cap ["A", "B"] 0 [itemCrossA, itemCrossB] 1 1).1,
   (filter_last_window_cap ["A", "B"] 0 [itemCrossA, itemCrossB] 1 1).2 (by decide)⟩
